import Mathlib

/-!
Verification development for the automation task orchestrator implemented in
src/index.js.  The data model, registry operations, rotation policy, discovery
heuristic and the route handlers relevant to the claims are embedded shallowly:
JavaScript in-place mutation of the shared task objects is rendered as explicit
state passing through a `World` (in-memory map plus durable file), fallible
I/O is a `FileData` / `Bool` parameter at the boundary, and the browser driver
is abstracted to the pure decisions the code makes with its answers.
-/

namespace AutoOrch

/-- Configuration bundle assembled by the start route (src/index.js, the
/start_automation handler).  The source field `namePrefix` is embedded here as
`prefixName`. -/
structure Config where
  chatId : String
  prefixName : String
  delay : Nat
  cookies : String
  messages : String
deriving DecidableEq

/-- The per-task state record (class PersistentAutomationState in src/index.js).
Timestamps are integers (milliseconds); fields that start as `null` are
`Option`-valued. -/
structure PersistentAutomationState where
  taskId : String
  running : Bool
  messageCount : Nat
  startTime : Option Int
  config : Option Config
  lastUpdated : Int
  processId : Option String
  messageRotationIndex : Nat
deriving DecidableEq

/-- The in-memory task map of TaskManager, with JavaScript `Map` semantics:
insertion order is kept, `set` on an existing key updates in place. -/
abbrev Registry := List (String × PersistentAutomationState)

/-- JavaScript `Map.prototype.get`. -/
def mapGet (m : Registry) (k : String) : Option PersistentAutomationState :=
  (m.find? (fun p => p.1 == k)).map Prod.snd

/-- JavaScript `Map.prototype.set`: update in place when the key exists,
append otherwise. -/
def mapSet (m : Registry) (k : String) (v : PersistentAutomationState) : Registry :=
  if (m.find? (fun p => p.1 == k)).isSome then
    m.map (fun p => if p.1 == k then (k, v) else p)
  else
    m ++ [(k, v)]

/-- Contents of the durable file automation_tasks.json as observed by
`loadTasks`: the file may be absent (`fs.readFile` throws), unparsable
(`JSON.parse` throws) or hold the serialized record map. -/
inductive FileData where
  | missing
  | corrupt
  | valid (records : List (String × PersistentAutomationState))
deriving DecidableEq

/-- The process state the registry operations act on: the in-memory map and
the durable file. -/
structure World where
  tasks : Registry
  file : FileData
deriving DecidableEq

/-- The fallible read-and-parse step at the head of `TaskManager.loadTasks`. -/
def readTasksFile : FileData → Except String (List (String × PersistentAutomationState))
  | FileData.missing => Except.error "ENOENT"
  | FileData.corrupt => Except.error "SyntaxError: JSON.parse"
  | FileData.valid records => Except.ok records

/-- The staleness window of `loadTasks`: 24 * 60 * 60 * 1000 milliseconds. -/
def staleWindowMs : Int := 24 * 60 * 60 * 1000

/-- One iteration of the `loadTasks` recovery loop: reconstruct the record
(Object.assign over a fresh PersistentAutomationState replaces every field,
because `saveTasks` serializes full records, so the reconstructed task is the
stored record itself) and keep it only when it is newer than the staleness
window. -/
def loadStep (currentTime : Int) (tasks : Registry)
    (p : String × PersistentAutomationState) : Registry :=
  if currentTime - p.2.lastUpdated < staleWindowMs then mapSet tasks p.1 p.2 else tasks

/-- TaskManager.loadTasks: read the durable file; on any read or parse error
the catch block only logs, leaving zero recovered tasks; otherwise fold the
stored records through the staleness filter. -/
def loadTasks (file : FileData) (currentTime : Int) : Registry :=
  match readTasksFile file with
  | Except.error _ => []
  | Except.ok savedTasks => savedTasks.foldl (loadStep currentTime) []

/-- TaskManager.saveTasks: serialize the full in-memory map over the durable
file; a write failure is caught and logged, leaving both the map and the file
as they were. -/
def saveTasks (w : World) (writeOk : Bool) : World :=
  if writeOk then { w with file := FileData.valid w.tasks } else w

/-- TaskManager.addTask. -/
def addTask (w : World) (taskId : String) (taskState : PersistentAutomationState)
    (writeOk : Bool) : World :=
  saveTasks { w with tasks := mapSet w.tasks taskId taskState } writeOk

/-- TaskManager.getTask: on a hit, refresh `lastUpdated` on the stored object
(in-place in the source, hence visible through the map) and persist; the
refreshed object is returned. -/
def getTask (w : World) (taskId : String) (now : Int) (writeOk : Bool) :
    Option PersistentAutomationState × World :=
  match mapGet w.tasks taskId with
  | none => (none, w)
  | some task =>
      let task1 := { task with lastUpdated := now }
      (some task1, saveTasks { w with tasks := mapSet w.tasks taskId task1 } writeOk)

/-- The partial update objects passed to TaskManager.updateTask.  The source
only ever passes subsets of these two fields. -/
structure TaskUpdates where
  running : Option Bool := none
  messageCount : Option Nat := none
deriving DecidableEq

/-- Object.assign(task, updates) for the update shapes the program uses. -/
def applyUpdates (task : PersistentAutomationState) (updates : TaskUpdates) :
    PersistentAutomationState :=
  { task with
    running := updates.running.getD task.running,
    messageCount := updates.messageCount.getD task.messageCount }

/-- TaskManager.updateTask: shallow-merge into the stored task, refresh
`lastUpdated`, persist; silently a no-op when the task is absent (and then
`saveTasks` is not invoked). -/
def updateTask (w : World) (taskId : String) (updates : TaskUpdates) (now : Int)
    (writeOk : Bool) : World :=
  match mapGet w.tasks taskId with
  | none => w
  | some task =>
      let task1 := { applyUpdates task updates with lastUpdated := now }
      saveTasks { w with tasks := mapSet w.tasks taskId task1 } writeOk

/-- TaskManager.removeTask (defined in the source, not reachable from any
route). -/
def removeTask (w : World) (taskId : String) (writeOk : Bool) : World :=
  saveTasks { w with tasks := w.tasks.filter (fun p => !(p.1 == taskId)) } writeOk

/-- TaskManager.getAllTasks: `new Map(this.tasks)` — an independent copy,
which in a pure embedding is the map itself. -/
def getAllTasks (tasks : Registry) : Registry := tasks

/-- Character-list helper: does the second list start with the first. -/
def charsStartWith : List Char → List Char → Bool
  | _, [] => true
  | [], _ :: _ => false
  | c :: cs, n :: ns => c == n && charsStartWith cs ns

/-- Character-list helper: does the haystack contain the needle as a
contiguous run. -/
def charsContain (needle : List Char) : List Char → Bool
  | [] => charsStartWith [] needle
  | c :: cs => charsStartWith (c :: cs) needle || charsContain needle cs

/-- JavaScript String.prototype.includes. -/
def strIncludes (s : String) (needle : String) : Bool :=
  charsContain needle.toList s.toList

/-- JavaScript String.prototype.toUpperCase over the identifiers and hint
texts this program handles (ASCII case mapping). -/
def strToUpper (s : String) : String := ⟨s.data.map Char.toUpper⟩

/-- JavaScript String.prototype.toLowerCase, likewise. -/
def strToLower (s : String) : String := ⟨s.data.map Char.toLower⟩

/-- getNextMessage(messages, automationStateObj): empty list yields the fixed
default without touching the cursor; with a state object it returns the
template at `messageRotationIndex % length` and bumps the cursor by one; with
no state object it returns the first template. -/
def getNextMessage (messages : List String)
    (automationStateObj : Option PersistentAutomationState) :
    String × Option PersistentAutomationState :=
  if messages.length = 0 then ("Hello!", automationStateObj)
  else
    match automationStateObj with
    | some st =>
        (messages.getD (st.messageRotationIndex % messages.length) "Hello!",
         some { st with messageRotationIndex := st.messageRotationIndex + 1 })
    | none => (messages.getD 0 "Hello!", none)

/-- Iterate `getNextMessage` k times, collecting the messages produced in
order together with the final state. -/
def callNextK (messages : List String) :
    Option PersistentAutomationState → Nat → List String × Option PersistentAutomationState
  | st, 0 => ([], st)
  | st, k + 1 =>
      let r := getNextMessage messages st
      let rest := callNextK messages r.2 k
      (r.1 :: rest.1, rest.2)

/-- Message composition in the sending loop: a truthy (non-empty) name prefix
is prepended with a single space. -/
def composeMessage (config : Config) (baseMessage : String) : String :=
  if config.prefixName = "" then baseMessage
  else config.prefixName ++ " " ++ baseMessage

/-- One iteration of the `while (automationStateObj.running)` sending loop in
sendMessages.  `getNextMessage` runs before the try block, so its cursor
advance happens whether or not the send step then throws; `sendOk` abstracts
whether the clear/type/submit interaction inside the try block succeeds.  On
success the loop-local counter and the task's `messageCount` advance and the
count is pushed through `updateTask`; on a throw the catch block only delays.
The task object the session holds is the object stored in the registry map, so
its mutation is rendered as a map update.  Returns the composed message of the
attempt, the loop counter and the resulting world. -/
def sendIteration (config : Config) (messagesList : List String) (taskId : String)
    (now : Int) (writeOk : Bool) (sendOk : Bool) (messagesSent : Nat) (w : World) :
    String × Nat × World :=
  match mapGet w.tasks taskId with
  | none => ("", messagesSent, w)
  | some st =>
      let r := getNextMessage messagesList (some st)
      let st1 := r.2.getD st
      let messageToSend := composeMessage config r.1
      let w1 := { w with tasks := mapSet w.tasks taskId st1 }
      if sendOk then
        let sent := messagesSent + 1
        let st2 := { st1 with messageCount := sent }
        let w2 := { w1 with tasks := mapSet w1.tasks taskId st2 }
        (messageToSend, sent, updateTask w2 taskId { messageCount := some sent } now writeOk)
      else
        (messageToSend, messagesSent, w1)

/-- The fresh record built by `new PersistentAutomationState(taskId)`. -/
def newAutomationState (taskId : String) (now : Int) : PersistentAutomationState :=
  { taskId := taskId, running := false, messageCount := 0, startTime := none,
    config := none, lastUpdated := now, processId := none, messageRotationIndex := 0 }

/-- startAutomationTask: build the state, flip `running` to true together with
the start metadata before the record is inserted, then store it.  The fresh
identifier produced by generateTaskId (sha256 of random material) is a
parameter of the embedding. -/
def startAutomationTask (w : World) (config : Config) (freshId : String) (now : Int)
    (writeOk : Bool) : String × World :=
  let automationState :=
    { newAutomationState freshId now with
      running := true, startTime := some now, config := some config,
      processId := some freshId }
  (freshId, addTask w freshId automationState writeOk)

/-- stopAutomationTask: a case-sensitive `getTask` lookup; on a hit the shared
object's `running` flag is cleared in place and the change is pushed through
`updateTask`; on a miss it reports failure. -/
def stopAutomationTask (w : World) (taskId : String) (now : Int) (writeOk : Bool) :
    Bool × World :=
  let r := getTask w taskId now writeOk
  match r.1 with
  | some task =>
      let w2 := { r.2 with tasks := mapSet r.2.tasks taskId { task with running := false } }
      (true, updateTask w2 taskId { running := some false } now writeOk)
  | none => (false, r.2)

/-- The case-insensitive fallback scan of the /status/:taskId route: walk the
snapshot from getAllTasks and return the first task whose identifier matches
under toUpperCase on both sides. -/
def findTaskCaseFold (tasks : Registry) (taskId : String) :
    Option PersistentAutomationState :=
  ((getAllTasks tasks).find? (fun p => strToUpper p.1 == strToUpper taskId)).map Prod.snd

/-- Outcome of the /status/:taskId handler. -/
inductive StatusPageResult where
  | page
  | notFoundPage
  | typeErrorThrown
deriving DecidableEq

/-- The /status/:taskId route: a direct getTask hit serves the status page; on
a miss the case-insensitive scan runs, and a scan hit then executes
`task = foundTask`, an assignment to the `const task` binding, which throws a
TypeError before any response body is produced. -/
def statusPageRoute (w : World) (taskId : String) (now : Int) (writeOk : Bool) :
    StatusPageResult × World :=
  let r := getTask w taskId now writeOk
  match r.1 with
  | some _ => (StatusPageResult.page, r.2)
  | none =>
      match findTaskCaseFold r.2.tasks taskId with
      | none => (StatusPageResult.notFoundPage, r.2)
      | some _ => (StatusPageResult.typeErrorThrown, r.2)

/-- Outcome of the /api/get_status/:taskId handler. -/
inductive ApiStatusResult where
  | notFound
  | ok (status : String) (taskIdEcho : String)
deriving DecidableEq

/-- The /api/get_status/:taskId route: a single case-sensitive getTask lookup;
a miss is a 404, a hit reports "running"/"stopped" and echoes the stored
identifier. -/
def apiGetStatusRoute (w : World) (taskId : String) (now : Int) (writeOk : Bool) :
    ApiStatusResult × World :=
  let r := getTask w taskId now writeOk
  match r.1 with
  | none => (ApiStatusResult.notFound, r.2)
  | some task =>
      (ApiStatusResult.ok (if task.running then "running" else "stopped") task.taskId, r.2)

/-- An element of the live document as findMessageInput inspects it: which of
the twelve selector patterns it matches (the CSS engine is external), its
interactivity data and its hint-text attributes. -/
structure DomElement where
  selectorsMatched : List Nat
  contentEditableTrue : Bool
  tagName : String
  placeholder : String
  ariaLabel : String
  ariaPlaceholder : String
deriving DecidableEq

/-- The genuinely-interactive check of findMessageInput: contentEditable
equal to "true", or a TEXTAREA or INPUT tag. -/
def isEditable (el : DomElement) : Bool :=
  el.contentEditableTrue || el.tagName == "TEXTAREA" || el.tagName == "INPUT"

/-- Hint-text extraction: placeholder, else aria-label, else
aria-placeholder, else the empty string (JavaScript falsy chaining). -/
def elementText (el : DomElement) : String :=
  if el.placeholder ≠ "" then el.placeholder
  else if el.ariaLabel ≠ "" then el.ariaLabel
  else if el.ariaPlaceholder ≠ "" then el.ariaPlaceholder
  else ""

/-- The fixed domain keyword list of findMessageInput. -/
def keywords : List String :=
  ["message", "write", "type", "send", "chat", "msg", "reply", "text", "aa"]

/-- Case-insensitive keyword test over the hint text. -/
def hasKeyword (el : DomElement) : Bool :=
  keywords.any (fun keyword => strIncludes (strToLower (elementText el)) keyword)

/-- The ordered selector pattern list of findMessageInput. -/
def messageInputSelectors : List String :=
  ["div[contenteditable=\"true\"][role=\"textbox\"]",
   "div[contenteditable=\"true\"][data-lexical-editor=\"true\"]",
   "div[aria-label*=\"message\" i][contenteditable=\"true\"]",
   "div[aria-label*=\"Message\" i][contenteditable=\"true\"]",
   "div[contenteditable=\"true\"][spellcheck=\"true\"]",
   "[role=\"textbox\"][contenteditable=\"true\"]",
   "textarea[placeholder*=\"message\" i]",
   "div[aria-placeholder*=\"message\" i]",
   "div[data-placeholder*=\"message\" i]",
   "[contenteditable=\"true\"]",
   "textarea",
   "input[type=\"text\"]"]

/-- page.$$(selector): the document-order elements matching selector number
`idx`. -/
def matchingElements (doc : List DomElement) (idx : Nat) : List DomElement :=
  doc.filter (fun el => el.selectorsMatched.contains idx)

/-- The three last-resort selector strings singled out by the acceptance
policy. -/
def isGenericFallbackSel (selector : String) : Bool :=
  selector == "[contenteditable=\"true\"]" || selector == "textarea" ||
    selector == "input[type=\"text\"]"

/-- The inner element loop of findMessageInput for one selector: skip
non-interactive matches; accept an interactive one immediately on a keyword
hit, else when the selector index is below ten, else when the selector is one
of the three generic fallbacks; otherwise keep scanning.  (The best-effort
focus click and the logging have no effect on the result.) -/
def scanElements (idx : Nat) (selector : String) : List DomElement → Option DomElement
  | [] => none
  | el :: rest =>
      if isEditable el then
        if hasKeyword el then some el
        else if idx < 10 then some el
        else if isGenericFallbackSel selector then some el
        else scanElements idx selector rest
      else scanElements idx selector rest

/-- The outer selector loop of findMessageInput. -/
def findMessageGo (doc : List DomElement) : List (Nat × String) → Option DomElement
  | [] => none
  | q :: rest =>
      match scanElements q.1 q.2 (matchingElements doc q.1) with
      | some el => some el
      | none => findMessageGo doc rest

/-- findMessageInput: try the selectors in order, first acceptable element
wins, and a fully exhausted scan is a definitive not-found (the diagnostic
page dump does not change the result). -/
def findMessageInput (doc : List DomElement) : Option DomElement :=
  findMessageGo doc messageInputSelectors.enum

/-- Modelled from the spec (section 4.3): the scan order the acceptance
policy is quantified over — (pattern, element) pairs, pattern-major, elements
in document order within a pattern. -/
def specScanOrder (doc : List DomElement) : List (Nat × DomElement) :=
  messageInputSelectors.enum.flatMap
    (fun q => (matchingElements doc q.1).map (fun el => (q.1, el)))

/-- Modelled from the spec (section 4.3, steps 3 and 6): a genuinely
interactive element is accepted on a keyword hit, else when its pattern is
among the first nine domain-specific patterns, else when its pattern is one of
the three generic fallbacks. -/
def specAccepts (q : Nat × DomElement) : Bool :=
  isEditable q.2 &&
    (hasKeyword q.2 || decide (q.1 < 9) ||
      isGenericFallbackSel (messageInputSelectors.getD q.1 ""))

/-- Modelled from the spec (section 4.3): discovery returns the first
acceptable pair of the scan order, or a definitive not-found. -/
def specDiscovery (doc : List DomElement) : Option DomElement :=
  ((specScanOrder doc).find? specAccepts).map Prod.snd

/-- The registry-mutating operations the program can perform during a process
lifetime, as invoked from the routes and the session loop.  (removeTask is
defined in the source but reachable from no route.) -/
inductive Op where
  | start (config : Config) (freshId : String) (now : Int) (writeOk : Bool)
  | stop (taskId : String) (now : Int) (writeOk : Bool)
  | pollStatus (taskId : String) (now : Int) (writeOk : Bool)
  | sendIterOp (config : Config) (messagesList : List String) (taskId : String)
      (now : Int) (writeOk : Bool) (sendOk : Bool) (messagesSent : Nat)
  | discoveryFailed (taskId : String) (now : Int) (writeOk : Bool)
  | fatalError (taskId : String) (now : Int) (writeOk : Bool)
  | finishRun (taskId : String) (finalCount : Nat) (now : Int) (writeOk : Bool)

/-- Effect of each operation on the world, as the source performs it. -/
def applyOp (op : Op) (w : World) : World :=
  match op with
  | Op.start config freshId now writeOk => (startAutomationTask w config freshId now writeOk).2
  | Op.stop taskId now writeOk => (stopAutomationTask w taskId now writeOk).2
  | Op.pollStatus taskId now writeOk => (getTask w taskId now writeOk).2
  | Op.sendIterOp config messagesList taskId now writeOk sendOk messagesSent =>
      (sendIteration config messagesList taskId now writeOk sendOk messagesSent w).2.2
  | Op.discoveryFailed taskId now writeOk =>
      updateTask w taskId { running := some false } now writeOk
  | Op.fatalError taskId now writeOk =>
      updateTask w taskId { running := some false } now writeOk
  | Op.finishRun taskId finalCount now writeOk =>
      updateTask w taskId { running := some false, messageCount := some finalCount } now writeOk

/-- Freshness of the generated identifier: generateTaskId draws 16 hex digits
of sha256 over fresh entropy, so a start operation never reuses a stored id. -/
def opFresh : Op → World → Prop
  | Op.start _ freshId _ _, w => mapGet w.tasks freshId = none
  | _, _ => True

/-- Concrete fixtures used by the witnesses and counterexamples. -/
def cfgW : Config :=
  { chatId := "", prefixName := "", delay := 5, cookies := "", messages := "a\nb" }

def msgsW : List String := ["a", "b"]

def taskW : PersistentAutomationState :=
  { taskId := "T1", running := true, messageCount := 0, startTime := some 0,
    config := some cfgW, lastUpdated := 0, processId := some "T1",
    messageRotationIndex := 0 }

def wW : World := { tasks := [("T1", taskW)], file := FileData.missing }

def taskC6 : PersistentAutomationState :=
  { taskId := "RAGHAV-E2E-AB", running := true, messageCount := 3, startTime := some 0,
    config := some cfgW, lastUpdated := 0, processId := some "RAGHAV-E2E-AB",
    messageRotationIndex := 3 }

def wC6 : World := { tasks := [("RAGHAV-E2E-AB", taskC6)], file := FileData.missing }

def taskStopped : PersistentAutomationState := { taskW with running := false }

def wStopped : World := { tasks := [("T1", taskStopped)], file := FileData.missing }

def taskFresh3 : PersistentAutomationState := { taskW with taskId := "A" }

def recsW3 : List (String × PersistentAutomationState) := [("A", taskFresh3)]

/-! Helper lemmas about the JavaScript-Map embedding. -/

theorem mapGet_nil (k : String) : mapGet [] k = none := rfl

theorem mapGet_cons (p : String × PersistentAutomationState) (m : Registry) (k : String) :
    mapGet (p :: m) k = if p.1 == k then some p.2 else mapGet m k := by
  unfold mapGet
  cases h : (p.1 == k) with
  | false => simp [List.find?, h]
  | true => simp [List.find?, h]

theorem mapGet_replace_of_ne (m : Registry) (k : String) (v : PersistentAutomationState)
    (k' : String) (h : k' ≠ k) :
    mapGet (m.map (fun p => if p.1 == k then (k, v) else p)) k' = mapGet m k' := by
  induction m with
  | nil => rfl
  | cons p m ih =>
      rw [List.map_cons, mapGet_cons, mapGet_cons]
      by_cases hp : p.1 = k
      · have h1 : (p.1 == k) = true := beq_iff_eq.mpr hp
        have h2 : (p.1 == k') = false := by
          rw [beq_eq_false_iff_ne]
          rw [hp]
          exact fun hh => h hh.symm
        have h3 : ((k, v).1 == k') = false := by
          rw [beq_eq_false_iff_ne]
          exact fun hh => h hh.symm
        simp only [h1, if_true, h2, h3, if_false, Bool.false_eq_true, ih]
      · have h1 : (p.1 == k) = false := beq_eq_false_iff_ne.mpr hp
        simp only [h1, Bool.false_eq_true, if_false, ih]

theorem mapGet_replace_self (m : Registry) (k : String) (v : PersistentAutomationState)
    (h : mapGet m k ≠ none) :
    mapGet (m.map (fun p => if p.1 == k then (k, v) else p)) k = some v := by
  induction m with
  | nil => exact absurd rfl h
  | cons p m ih =>
      rw [List.map_cons, mapGet_cons]
      by_cases hp : p.1 = k
      · have h1 : (p.1 == k) = true := beq_iff_eq.mpr hp
        simp [h1]
      · have h1 : (p.1 == k) = false := beq_eq_false_iff_ne.mpr hp
        rw [mapGet_cons] at h
        rw [h1] at h
        simp only [Bool.false_eq_true, if_false] at h
        simp only [h1, Bool.false_eq_true, if_false, ih h]

theorem mapGet_append_single_ne (m : Registry) (k : String) (v : PersistentAutomationState)
    (k' : String) (h : k' ≠ k) :
    mapGet (m ++ [(k, v)]) k' = mapGet m k' := by
  induction m with
  | nil =>
      rw [List.nil_append, mapGet_cons]
      have h3 : ((k, v).1 == k') = false := by
        rw [beq_eq_false_iff_ne]
        exact fun hh => h hh.symm
      simp only [h3, Bool.false_eq_true, if_false, mapGet_nil]
  | cons p m ih =>
      rw [List.cons_append, mapGet_cons, mapGet_cons, ih]

theorem mapGet_append_single_self (m : Registry) (k : String) (v : PersistentAutomationState)
    (h : mapGet m k = none) :
    mapGet (m ++ [(k, v)]) k = some v := by
  induction m with
  | nil =>
      rw [List.nil_append, mapGet_cons]
      have h3 : ((k, v).1 == k) = true := beq_iff_eq.mpr rfl
      rw [h3, if_pos rfl]
  | cons p m ih =>
      rw [mapGet_cons] at h
      by_cases hp : p.1 == k
      · rw [if_pos hp] at h
        exact absurd h (by simp)
      · rw [if_neg hp] at h
        rw [List.cons_append, mapGet_cons, if_neg hp]
        exact ih h

theorem mapGet_isSome_of_find? (m : Registry) (k : String) :
    (m.find? (fun p => p.1 == k)).isSome = true ↔ mapGet m k ≠ none := by
  unfold mapGet
  cases m.find? (fun p => p.1 == k) <;> simp

theorem mapGet_mapSet (m : Registry) (k : String) (v : PersistentAutomationState)
    (k' : String) :
    mapGet (mapSet m k v) k' = if k' = k then some v else mapGet m k' := by
  unfold mapSet
  by_cases hpres : (m.find? (fun p => p.1 == k)).isSome = true
  · rw [if_pos hpres]
    by_cases hk : k' = k
    · rw [if_pos hk, hk]
      exact mapGet_replace_self m k v ((mapGet_isSome_of_find? m k).mp hpres)
    · rw [if_neg hk]
      exact mapGet_replace_of_ne m k v k' hk
  · rw [if_neg hpres]
    have habs : mapGet m k = none := by
      by_contra hne
      exact hpres ((mapGet_isSome_of_find? m k).mpr hne)
    by_cases hk : k' = k
    · rw [if_pos hk, hk]
      exact mapGet_append_single_self m k v habs
    · rw [if_neg hk]
      exact mapGet_append_single_ne m k v k' hk

theorem mapSet_of_absent (m : Registry) (k : String) (v : PersistentAutomationState)
    (h : mapGet m k = none) :
    mapSet m k v = m ++ [(k, v)] := by
  unfold mapSet
  rw [if_neg]
  intro hpres
  exact ((mapGet_isSome_of_find? m k).mp hpres) h

theorem tasks_saveTasks (w : World) (writeOk : Bool) :
    (saveTasks w writeOk).tasks = w.tasks := by
  unfold saveTasks
  cases writeOk <;> rfl

theorem file_saveTasks_false (w : World) : (saveTasks w false).file = w.file := rfl

theorem mapGet_updateTask (w : World) (id : String) (u : TaskUpdates) (now : Int)
    (writeOk : Bool) (k : String) :
    mapGet (updateTask w id u now writeOk).tasks k =
      if k = id then
        (mapGet w.tasks id).map (fun t => { applyUpdates t u with lastUpdated := now })
      else mapGet w.tasks k := by
  unfold updateTask
  cases hg : mapGet w.tasks id with
  | none =>
      by_cases hk : k = id
      · rw [if_pos hk, hk, hg]
        rfl
      · rw [if_neg hk]
  | some t =>
      rw [tasks_saveTasks, mapGet_mapSet]
      by_cases hk : k = id
      · rw [if_pos hk, if_pos hk]
        rfl
      · rw [if_neg hk, if_neg hk]

/-! Rotation policy lemmas. -/

theorem getNextMessage_step (T : List String) (st : PersistentAutomationState)
    (hT : T ≠ []) :
    getNextMessage T (some st) =
      (T.getD (st.messageRotationIndex % T.length) "Hello!",
       some { st with messageRotationIndex := st.messageRotationIndex + 1 }) := by
  unfold getNextMessage
  rw [if_neg]
  exact fun h => hT (List.length_eq_zero.mp h)

theorem callNextK_law (T : List String) (hT : T ≠ []) :
    ∀ (k : Nat) (st : PersistentAutomationState),
      callNextK T (some st) k =
        ((List.range k).map
          (fun i => T.getD ((st.messageRotationIndex + i) % T.length) "Hello!"),
         some { st with messageRotationIndex := st.messageRotationIndex + k }) := by
  intro k
  induction k with
  | zero => intro st; rfl
  | succ k ih =>
      intro st
      show (let r := getNextMessage T (some st);
            let rest := callNextK T r.2 k;
            (r.1 :: rest.1, rest.2)) = _
      rw [getNextMessage_step T st hT]
      show (T.getD (st.messageRotationIndex % T.length) "Hello!" ::
              (callNextK T (some { st with
                messageRotationIndex := st.messageRotationIndex + 1 }) k).1,
            (callNextK T (some { st with
              messageRotationIndex := st.messageRotationIndex + 1 }) k).2) = _
      rw [ih { st with messageRotationIndex := st.messageRotationIndex + 1 }]
      have harith : ∀ i : Nat,
          st.messageRotationIndex + 1 + i = st.messageRotationIndex + (i + 1) := by
        intro i; omega
      have hsum : st.messageRotationIndex + 1 + k = st.messageRotationIndex + (k + 1) := by
        omega
      simp only [List.range_succ_eq_map, List.map_cons, List.map_map, Function.comp_def,
        Nat.succ_eq_add_one, harith, hsum, Nat.add_zero]

/-- C2: for every non-empty template list T and starting cursor position, one
call to getNextMessage returns the template at index cursor mod length and
advances the cursor by exactly one, and k successive calls yield the templates
at indices cursor, cursor + 1 mod length, ..., cursor + k - 1 mod length with
the cursor advanced by k, for every k including k beyond the list length. -/
theorem rotation_wrap_law (T : List String) (st : PersistentAutomationState) (k : Nat)
    (hT : T ≠ []) :
    getNextMessage T (some st) =
      (T.getD (st.messageRotationIndex % T.length) "Hello!",
       some { st with messageRotationIndex := st.messageRotationIndex + 1 })
    ∧ callNextK T (some st) k =
      ((List.range k).map
        (fun i => T.getD ((st.messageRotationIndex + i) % T.length) "Hello!"),
       some { st with messageRotationIndex := st.messageRotationIndex + k }) :=
  ⟨getNextMessage_step T st hT, callNextK_law T hT k st⟩

/-- Witness for C2: five calls over the three-template list produce the
wrapped-around sequence. -/
theorem rotation_wrap_law_witness :
    (callNextK ["x", "y", "z"] (some taskW) 5).1 = ["x", "y", "z", "x", "y"] := by
  have h := rotation_wrap_law ["x", "y", "z"] taskW 5 (by decide)
  rw [h.2]
  decide

/-! Sending-loop iteration lemmas. -/

theorem sendIteration_false (config : Config) (msgs : List String) (id : String)
    (now : Int) (writeOk : Bool) (sent : Nat) (w : World)
    (t : PersistentAutomationState) (hmem : mapGet w.tasks id = some t)
    (hmsgs : msgs ≠ []) :
    sendIteration config msgs id now writeOk false sent w =
      (composeMessage config (msgs.getD (t.messageRotationIndex % msgs.length) "Hello!"),
       sent,
       { w with tasks :=
          (mapSet w.tasks id ({ t with messageRotationIndex := t.messageRotationIndex + 1 })) }) := by
  simp only [sendIteration, hmem, getNextMessage_step msgs t hmsgs]
  rfl

theorem sendIteration_true (config : Config) (msgs : List String) (id : String)
    (now : Int) (writeOk : Bool) (sent : Nat) (w : World)
    (t : PersistentAutomationState) (hmem : mapGet w.tasks id = some t)
    (hmsgs : msgs ≠ []) :
    sendIteration config msgs id now writeOk true sent w =
      (composeMessage config (msgs.getD (t.messageRotationIndex % msgs.length) "Hello!"),
       sent + 1,
       updateTask
         { w with tasks :=
            (mapSet
              (mapSet w.tasks id ({ t with messageRotationIndex := t.messageRotationIndex + 1 }))
              id
              ({ t with messageRotationIndex := t.messageRotationIndex + 1,
                        messageCount := sent + 1 })) }
         id { messageCount := some (sent + 1) } now writeOk) := by
  simp only [sendIteration, hmem, getNextMessage_step msgs t hmsgs]
  rfl

/-- C1 counterexample: with templates ["a", "b"] and cursor 0, an iteration of
the sending loop whose send step throws still moves the task's rotation cursor
from 0 to 1, refuting that a failed attempt advances neither counter. -/
theorem failedSend_advances_cursor_cex :
    (mapGet (sendIteration cfgW msgsW "T1" 100 true false 0 wW).2.2.tasks "T1").map
        PersistentAutomationState.messageRotationIndex = some 1
    ∧ (mapGet wW.tasks "T1").map PersistentAutomationState.messageRotationIndex =
        some 0 := by
  constructor <;> rfl

/-- C1 (amended): a failed send attempt advances neither the loop counter nor
the task's messageCount, and the durable file is untouched, but getNextMessage
runs before the try block, so the attempt does advance messageRotationIndex by
one — the cursor grows by one per attempt, successful or not, and the retry
composes the next template, not the failed one. -/
theorem failedSend_frame (config : Config) (msgs : List String) (id : String)
    (now : Int) (writeOk : Bool) (sent : Nat) (w : World)
    (t : PersistentAutomationState) (hmem : mapGet w.tasks id = some t)
    (hmsgs : msgs ≠ []) :
    (∀ sendOk : Bool,
      (mapGet (sendIteration config msgs id now writeOk sendOk sent w).2.2.tasks id).map
          PersistentAutomationState.messageRotationIndex =
        some (t.messageRotationIndex + 1))
    ∧ (sendIteration config msgs id now writeOk false sent w).2.1 = sent
    ∧ mapGet (sendIteration config msgs id now writeOk false sent w).2.2.tasks id =
        some { t with messageRotationIndex := t.messageRotationIndex + 1 }
    ∧ (sendIteration config msgs id now writeOk false sent w).2.2.file = w.file
    ∧ (sendIteration config msgs id now writeOk false sent w).1 =
        composeMessage config (msgs.getD (t.messageRotationIndex % msgs.length) "Hello!") := by
  refine ⟨?_, ?_, ?_, ?_, ?_⟩
  · intro sendOk
    cases sendOk with
    | false =>
        rw [sendIteration_false config msgs id now writeOk sent w t hmem hmsgs]
        simp only [mapGet_mapSet, if_pos rfl]
        rfl
    | true =>
        rw [sendIteration_true config msgs id now writeOk sent w t hmem hmsgs]
        simp only [mapGet_updateTask, if_pos rfl, mapGet_mapSet]
        rfl
  · rw [sendIteration_false config msgs id now writeOk sent w t hmem hmsgs]
  · rw [sendIteration_false config msgs id now writeOk sent w t hmem hmsgs]
    simp [mapGet_mapSet]
  · rw [sendIteration_false config msgs id now writeOk sent w t hmem hmsgs]
  · rw [sendIteration_false config msgs id now writeOk sent w t hmem hmsgs]

/-- Witness for C1's amended theorem at the concrete fixture. -/
theorem failedSend_frame_witness :
    (sendIteration cfgW msgsW "T1" 100 true false 0 wW).2.1 = 0
    ∧ mapGet (sendIteration cfgW msgsW "T1" 100 true false 0 wW).2.2.tasks "T1" =
        some { taskW with messageRotationIndex := 1 }
    ∧ (sendIteration cfgW msgsW "T1" 100 true false 0 wW).1 = "a" := by
  have h := failedSend_frame cfgW msgsW "T1" 100 true 0 wW taskW rfl (by decide)
  exact ⟨h.2.1, h.2.2.1, h.2.2.2.2⟩

/-! Recovery (loadTasks) lemmas. -/

theorem mapGet_eq_none_of_keys (m : Registry) (k : String)
    (h : ∀ p ∈ m, p.1 ≠ k) : mapGet m k = none := by
  induction m with
  | nil => rfl
  | cons p m ih =>
      rw [mapGet_cons]
      have h1 : (p.1 == k) = false := beq_eq_false_iff_ne.mpr (h p (List.mem_cons_self p m))
      simp only [h1, Bool.false_eq_true, if_false]
      exact ih (fun q hq => h q (List.mem_cons_of_mem p hq))

theorem loadFold_eq (now : Int) (recs : List (String × PersistentAutomationState)) :
    ∀ (acc : Registry),
      (∀ p ∈ recs, mapGet acc p.1 = none) →
      (recs.map Prod.fst).Nodup →
      recs.foldl (loadStep now) acc =
        acc ++ recs.filter (fun p => decide (now - p.2.lastUpdated < staleWindowMs)) := by
  induction recs with
  | nil => intro acc _ _; simp
  | cons p recs ih =>
      intro acc hacc hnd
      have hnotin : p.1 ∉ recs.map Prod.fst := by
        rw [List.map_cons, List.nodup_cons] at hnd
        exact hnd.1
      have hnd' : (recs.map Prod.fst).Nodup := by
        rw [List.map_cons, List.nodup_cons] at hnd
        exact hnd.2
      rw [List.foldl_cons]
      by_cases hfresh : now - p.2.lastUpdated < staleWindowMs
      · have hstep : loadStep now acc p = acc ++ [p] := by
          unfold loadStep
          rw [if_pos hfresh, mapSet_of_absent acc p.1 p.2 (hacc p (List.mem_cons_self p recs))]
        rw [hstep]
        rw [ih (acc ++ [p]) ?_ hnd']
        · rw [List.filter_cons_of_pos (by simpa using hfresh), List.append_assoc,
            List.singleton_append]
        · intro q hq
          have hne : q.1 ≠ p.1 := by
            intro he
            exact hnotin (he ▸ List.mem_map_of_mem Prod.fst hq)
          have h2 := mapGet_append_single_ne acc p.1 p.2 q.1 hne
          exact h2.trans (hacc q (List.mem_cons_of_mem p hq))
      · have hstep : loadStep now acc p = acc := by
          unfold loadStep
          rw [if_neg hfresh]
        rw [hstep, ih acc (fun q hq => hacc q (List.mem_cons_of_mem p hq)) hnd']
        rw [List.filter_cons_of_neg (by simpa using hfresh)]

theorem mapGet_filter_of_nodup (q : String × PersistentAutomationState → Bool)
    (recs : List (String × PersistentAutomationState)) :
    ∀ (k : String) (t : PersistentAutomationState),
      (recs.map Prod.fst).Nodup → (k, t) ∈ recs →
      mapGet (recs.filter q) k = if q (k, t) then some t else none := by
  induction recs with
  | nil => intro k t _ hmem; cases hmem
  | cons p recs ih =>
      intro k t hnd hmem
      have hnotin : p.1 ∉ recs.map Prod.fst := by
        rw [List.map_cons, List.nodup_cons] at hnd
        exact hnd.1
      have hnd' : (recs.map Prod.fst).Nodup := by
        rw [List.map_cons, List.nodup_cons] at hnd
        exact hnd.2
      rcases List.mem_cons.mp hmem with heq | hmem'
      · subst heq
        cases hq : q (k, t) with
        | true =>
            rw [List.filter_cons_of_pos hq, mapGet_cons]
            have h3 : ((k, t).1 == k) = true := beq_iff_eq.mpr rfl
            simp [h3, hq]
        | false =>
            rw [List.filter_cons_of_neg (by simp [hq])]
            have hnone : mapGet (recs.filter q) k = none := by
              apply mapGet_eq_none_of_keys
              intro r hr he
              apply hnotin
              have hm : r.1 ∈ recs.map Prod.fst :=
                List.mem_map_of_mem Prod.fst (List.mem_of_mem_filter hr)
              rw [he] at hm
              exact hm
            simp [hq, hnone]
      · have hne : p.1 ≠ k := by
          intro he
          apply hnotin
          rw [he]
          exact List.mem_map_of_mem Prod.fst hmem'
        cases hqp : q p with
        | true =>
            rw [List.filter_cons_of_pos hqp, mapGet_cons]
            have h1 : (p.1 == k) = false := beq_eq_false_iff_ne.mpr hne
            simp only [h1, Bool.false_eq_true, if_false]
            exact ih k t hnd' hmem'
        | false =>
            rw [List.filter_cons_of_neg (by simp [hqp])]
            exact ih k t hnd' hmem'

theorem loadTasks_valid_eq_filter (recs : List (String × PersistentAutomationState))
    (now : Int) (hnd : (recs.map Prod.fst).Nodup) :
    loadTasks (FileData.valid recs) now =
      recs.filter (fun p => decide (now - p.2.lastUpdated < staleWindowMs)) := by
  show recs.foldl (loadStep now) [] = _
  rw [loadFold_eq now recs [] (fun p _ => rfl) hnd, List.nil_append]

/-- C3: a stored record is reconstructed and retained by loadTasks exactly
when its lastUpdated is strictly inside the 24-hour staleness window at load
time; any older record — including one aged exactly 24 hours, so the boundary
is deterministic — is absent from the registry afterwards. -/
theorem load_staleness_law (recs : List (String × PersistentAutomationState))
    (now : Int) (k : String) (t : PersistentAutomationState)
    (hnd : (recs.map Prod.fst).Nodup) (hmem : (k, t) ∈ recs) :
    (now - t.lastUpdated < staleWindowMs →
        mapGet (loadTasks (FileData.valid recs) now) k = some t)
    ∧ (staleWindowMs ≤ now - t.lastUpdated →
        mapGet (loadTasks (FileData.valid recs) now) k = none) := by
  rw [loadTasks_valid_eq_filter recs now hnd]
  rw [mapGet_filter_of_nodup (fun p => decide (now - p.2.lastUpdated < staleWindowMs))
    recs k t hnd hmem]
  constructor
  · intro hlt
    rw [if_pos (decide_eq_true hlt)]
  · intro hge
    rw [if_neg (by simpa using not_lt.mpr hge)]

/-- Witness for C3: a one-record file is retained when loaded within the
window and dropped at the exact 24-hour boundary. -/
theorem load_staleness_law_witness :
    mapGet (loadTasks (FileData.valid recsW3) 1) "A" = some taskFresh3
    ∧ mapGet (loadTasks (FileData.valid recsW3) 86400000) "A" = none :=
  ⟨(load_staleness_law recsW3 1 "A" taskFresh3 (by decide) (by decide)).1 (by decide),
   (load_staleness_law recsW3 86400000 "A" taskFresh3 (by decide) (by decide)).2 (by decide)⟩

/-- C4: saving the registry and re-loading it reconstructs the registry
field-for-field, provided the stored keys are distinct and every task is newer
than the staleness window at load time; loadTasks performs no lastUpdated
refresh, so the equality is exact. -/
theorem save_load_roundtrip (w : World) (now : Int)
    (hnd : (w.tasks.map Prod.fst).Nodup)
    (hfresh : ∀ p ∈ w.tasks, now - p.2.lastUpdated < staleWindowMs) :
    (saveTasks w true).file = FileData.valid w.tasks
    ∧ loadTasks (saveTasks w true).file now = w.tasks := by
  refine ⟨rfl, ?_⟩
  show loadTasks (FileData.valid w.tasks) now = w.tasks
  rw [loadTasks_valid_eq_filter w.tasks now hnd]
  rw [List.filter_eq_self.mpr (fun p hp => decide_eq_true (hfresh p hp))]

/-- Witness for C4 at the one-task fixture. -/
theorem save_load_roundtrip_witness :
    (saveTasks wW true).file = FileData.valid wW.tasks
    ∧ loadTasks (saveTasks wW true).file 1 = wW.tasks :=
  save_load_roundtrip wW 1 (by decide) (by decide)

/-- C9: getTask on a present task returns that task with only its lastUpdated
field refreshed, changes nothing else about it or any other task, and persists
the registry; on an absent identifier it returns absent and leaves the world —
map and durable file — entirely unchanged. -/
theorem getTask_frame (w : World) (id : String) (now : Int) :
    (mapGet w.tasks id = none → getTask w id now true = (none, w))
    ∧ (∀ t : PersistentAutomationState, mapGet w.tasks id = some t →
        (getTask w id now true).1 = some { t with lastUpdated := now }
        ∧ mapGet (getTask w id now true).2.tasks id = some { t with lastUpdated := now }
        ∧ (∀ k : String, k ≠ id →
            mapGet (getTask w id now true).2.tasks k = mapGet w.tasks k)
        ∧ (getTask w id now true).2.file =
            FileData.valid (mapSet w.tasks id ({ t with lastUpdated := now }))) := by
  constructor
  · intro hg
    simp only [getTask, hg]
  · intro t hg
    have h1 : getTask w id now true =
        (some { t with lastUpdated := now },
         saveTasks { w with tasks := mapSet w.tasks id ({ t with lastUpdated := now }) } true) := by
      simp only [getTask, hg]
    rw [h1]
    refine ⟨rfl, ?_, ?_, rfl⟩
    · rw [tasks_saveTasks, mapGet_mapSet, if_pos rfl]
    · intro k hk
      rw [tasks_saveTasks, mapGet_mapSet, if_neg hk]

/-- Witness for C9: a present and an absent lookup at the fixture. -/
theorem getTask_frame_witness :
    (getTask wW "T1" 7 true).1 = some { taskW with lastUpdated := 7 }
    ∧ getTask wW "ZZ" 7 true = (none, wW) :=
  ⟨((getTask_frame wW "T1" 7).2 taskW (by decide)).1,
   (getTask_frame wW "ZZ" 7).1 (by decide)⟩

/-- C8: no registry operation surfaces an error: a failing read or parse of
the durable file makes loadTasks recover zero tasks instead of raising, a
failing write leaves both the in-memory map and the old file intact, and the
in-memory result of every operation is independent of whether the durable
write succeeds, so the map stays authoritative. -/
theorem registry_no_raise :
    (∀ (file : FileData) (now : Int) (e : String),
        readTasksFile file = Except.error e → loadTasks file now = [])
    ∧ (∀ w : World, (saveTasks w false).tasks = w.tasks ∧ (saveTasks w false).file = w.file)
    ∧ (∀ (w : World) (id : String) (t : PersistentAutomationState) (writeOk : Bool),
        (addTask w id t writeOk).tasks = (addTask w id t true).tasks)
    ∧ (∀ (w : World) (id : String) (now : Int) (writeOk : Bool),
        (getTask w id now writeOk).1 = (getTask w id now true).1
        ∧ (getTask w id now writeOk).2.tasks = (getTask w id now true).2.tasks)
    ∧ (∀ (w : World) (id : String) (u : TaskUpdates) (now : Int) (writeOk : Bool),
        (updateTask w id u now writeOk).tasks = (updateTask w id u now true).tasks)
    ∧ (∀ (w : World) (id : String) (writeOk : Bool),
        (removeTask w id writeOk).tasks = (removeTask w id true).tasks)
    ∧ (∀ tasks : Registry, getAllTasks tasks = tasks) := by
  refine ⟨?_, ?_, ?_, ?_, ?_, ?_, ?_⟩
  · intro file now e h
    cases file with
    | missing => rfl
    | corrupt => rfl
    | valid records => exact absurd h (by simp [readTasksFile])
  · intro w
    exact ⟨rfl, rfl⟩
  · intro w id t writeOk
    simp [addTask, tasks_saveTasks]
  · intro w id now writeOk
    cases hg : mapGet w.tasks id with
    | none => simp [getTask, hg]
    | some t => simp [getTask, hg, tasks_saveTasks]
  · intro w id u now writeOk
    cases hg : mapGet w.tasks id with
    | none => simp [updateTask, hg]
    | some t => simp [updateTask, hg, tasks_saveTasks]
  · intro w id writeOk
    simp [removeTask, tasks_saveTasks]
  · intro tasks
    rfl

/-- Witness for C8: missing and corrupt files recover zero tasks, and a
failing write leaves the fixture's map as it was. -/
theorem registry_no_raise_witness :
    loadTasks FileData.corrupt 5 = []
    ∧ loadTasks FileData.missing 5 = []
    ∧ (saveTasks wW false).tasks = wW.tasks :=
  ⟨registry_no_raise.1 FileData.corrupt 5 "SyntaxError: JSON.parse" rfl,
   registry_no_raise.1 FileData.missing 5 "ENOENT" rfl,
   (registry_no_raise.2.1 wW).1⟩

/-- C10: a Stop request succeeds exactly when the identifier matches a stored
taskId case-sensitively; on a miss — even one the case-insensitive poll
fallback scan would resolve — it reports not-found and leaves the whole world
unchanged. -/
theorem stop_case_sensitive (w : World) (id : String) (now : Int) (writeOk : Bool) :
    ((stopAutomationTask w id now writeOk).1 = true ↔ (mapGet w.tasks id).isSome = true)
    ∧ (∀ t : PersistentAutomationState, mapGet w.tasks id = some t →
        mapGet (stopAutomationTask w id now writeOk).2.tasks id =
          some ({ t with lastUpdated := now, running := false }))
    ∧ (mapGet w.tasks id = none → stopAutomationTask w id now writeOk = (false, w))
    ∧ (mapGet w.tasks id = none → (findTaskCaseFold w.tasks id).isSome = true →
        stopAutomationTask w id now writeOk = (false, w)) := by
  cases hg : mapGet w.tasks id with
  | none =>
      have hstop : stopAutomationTask w id now writeOk = (false, w) := by
        simp only [stopAutomationTask, getTask, hg]
      refine ⟨?_, ?_, fun _ => hstop, fun _ _ => hstop⟩
      · rw [hstop]
        simp
      · intro t2 ht2
        exact absurd ht2 (by simp)
  | some t =>
      have htrue : (stopAutomationTask w id now writeOk).1 = true := by
        simp only [stopAutomationTask, getTask, hg]
      refine ⟨?_, ?_, ?_, ?_⟩
      · rw [htrue]
        simp
      · intro t2 ht2
        have ht : t2 = t := by
          injection ht2.symm
        subst ht
        simp only [stopAutomationTask, getTask, hg, tasks_saveTasks]
        rw [mapGet_updateTask, if_pos rfl]
        simp only [mapGet_mapSet, if_pos rfl]
        rfl
      · intro h
        exact absurd h (by simp)
      · intro h _
        exact absurd h (by simp)

/-- Witness for C10: the stored id "RAGHAV-E2E-AB" polled as "raghav-e2e-ab"
is resolvable by the case-insensitive scan, yet Stop rejects it and changes
nothing. -/
theorem stop_case_sensitive_witness :
    stopAutomationTask wC6 "raghav-e2e-ab" 5 true = (false, wC6)
    ∧ (findTaskCaseFold wC6.tasks "raghav-e2e-ab").isSome = true :=
  ⟨(stop_case_sensitive wC6 "raghav-e2e-ab" 5 true).2.2.2 (by decide) (by decide),
   by decide⟩

/-- C6 (code bug evidence): polling the stored identifier "RAGHAV-E2E-AB" in
lower case gives a 404 on the JSON status route, and on the page route the
case-insensitive fallback finds the task but then throws a TypeError
(assignment to the `const task` binding), so no letter case other than the
stored one ever yields the task's status; the exact identifier works. -/
theorem poll_case_insensitive_bug :
    (apiGetStatusRoute wC6 "raghav-e2e-ab" 50 true).1 = ApiStatusResult.notFound
    ∧ (statusPageRoute wC6 "raghav-e2e-ab" 50 true).1 = StatusPageResult.typeErrorThrown
    ∧ (findTaskCaseFold wC6.tasks "raghav-e2e-ab") = some taskC6
    ∧ (apiGetStatusRoute wC6 "RAGHAV-E2E-AB" 50 true).1 =
        ApiStatusResult.ok "running" "RAGHAV-E2E-AB" := by
  exact ⟨by decide, by decide, by decide, by decide⟩

/-! Lemmas for the running-flag invariant. -/

theorem getNextMessage_preserves (T : List String) (u : PersistentAutomationState) :
    ((getNextMessage T (some u)).2.getD u).running = u.running := by
  unfold getNextMessage
  by_cases h : T.length = 0
  · rw [if_pos h]
    rfl
  · rw [if_neg h]
    rfl

theorem running_false_after_updateTask (w : World) (tid : String) (u : TaskUpdates)
    (now : Int) (writeOk : Bool) (hu : u.running = some false ∨ u.running = none)
    (id : String) (t' : PersistentAutomationState)
    (hbef : ∀ x : PersistentAutomationState, mapGet w.tasks id = some x → x.running = false)
    (haft : mapGet (updateTask w tid u now writeOk).tasks id = some t') :
    t'.running = false := by
  rw [mapGet_updateTask] at haft
  by_cases hid : id = tid
  · rw [if_pos hid] at haft
    cases hg : mapGet w.tasks tid with
    | none =>
        rw [hg] at haft
        exact absurd haft (by simp)
    | some x =>
        rw [hg] at haft
        have hx : x.running = false := hbef x (by rw [hid]; exact hg)
        have ht' : t' = { applyUpdates x u with lastUpdated := now } := by
          simpa using haft.symm
        rw [ht']
        show (applyUpdates x u).running = false
        unfold applyUpdates
        show u.running.getD x.running = false
        rcases hu with h | h
        · rw [h]
          rfl
        · rw [h]
          exact hx
  · rw [if_neg hid] at haft
    exact hbef t' haft

/-- C7: during a process lifetime the running flag of a task is set to true
exactly once, on the record inserted by task creation, and every other
reachable registry operation preserves running = false: once a task is
stopped, no operation resurrects it. -/
theorem running_one_way :
    (∀ (config : Config) (freshId : String) (now : Int) (writeOk : Bool) (w : World),
        mapGet (applyOp (Op.start config freshId now writeOk) w).tasks freshId =
          some { taskId := freshId, running := true, messageCount := 0,
                 startTime := some now, config := some config, lastUpdated := now,
                 processId := some freshId, messageRotationIndex := 0 })
    ∧ (∀ (op : Op) (w : World) (id : String) (t t' : PersistentAutomationState),
        opFresh op w → mapGet w.tasks id = some t → t.running = false →
        mapGet (applyOp op w).tasks id = some t' → t'.running = false) := by
  constructor
  · intro config freshId now writeOk w
    unfold applyOp startAutomationTask addTask
    rw [tasks_saveTasks, mapGet_mapSet, if_pos rfl]
    rfl
  · intro op w id t t' hfr hbef hrun haft
    have hbefall : ∀ x : PersistentAutomationState,
        mapGet w.tasks id = some x → x.running = false := by
      intro x hx
      rw [hbef] at hx
      cases hx
      exact hrun
    cases op with
    | start config freshId now writeOk =>
        have hfr' : mapGet w.tasks freshId = none := hfr
        simp only [applyOp, startAutomationTask, addTask, tasks_saveTasks] at haft
        rw [mapGet_mapSet] at haft
        by_cases hid : id = freshId
        · rw [hid, hfr'] at hbef
          exact absurd hbef (by simp)
        · rw [if_neg hid] at haft
          exact hbefall t' haft
    | stop tid now writeOk =>
        cases hg : mapGet w.tasks tid with
        | none =>
            simp only [applyOp, stopAutomationTask, getTask, hg] at haft
            exact hbefall t' haft
        | some x =>
            simp only [applyOp, stopAutomationTask, getTask, hg, tasks_saveTasks] at haft
            refine running_false_after_updateTask _ tid _ now writeOk (Or.inl rfl) id t' ?_ haft
            intro y hy
            simp only [mapGet_mapSet] at hy
            by_cases hid : id = tid
            · rw [if_pos hid] at hy
              have hy' : ({ x with lastUpdated := now, running := false } :
                  PersistentAutomationState) = y := by simpa using hy
              rw [← hy']
            · rw [if_neg hid, if_neg hid] at hy
              exact hbefall y hy
    | pollStatus tid now writeOk =>
        cases hg : mapGet w.tasks tid with
        | none =>
            simp only [applyOp, getTask, hg] at haft
            exact hbefall t' haft
        | some x =>
            simp only [applyOp, getTask, hg, tasks_saveTasks] at haft
            rw [mapGet_mapSet] at haft
            by_cases hid : id = tid
            · rw [if_pos hid] at haft
              have ht' : ({ x with lastUpdated := now } :
                  PersistentAutomationState) = t' := by simpa using haft
              rw [← ht']
              exact hbefall x (by rw [hid]; exact hg)
            · rw [if_neg hid] at haft
              exact hbefall t' haft
    | sendIterOp config msgs tid now writeOk sendOk sent =>
        cases hg : mapGet w.tasks tid with
        | none =>
            simp only [applyOp, sendIteration, hg] at haft
            exact hbefall t' haft
        | some x =>
            have hx : x.running = false → True := fun _ => trivial
            cases sendOk with
            | false =>
                simp only [applyOp, sendIteration, hg, Bool.false_eq_true, if_false] at haft
                rw [mapGet_mapSet] at haft
                by_cases hid : id = tid
                · rw [if_pos hid] at haft
                  have ht' : (getNextMessage msgs (some x)).2.getD x = t' := by
                    simpa using haft
                  rw [← ht', getNextMessage_preserves]
                  exact hbefall x (by rw [hid]; exact hg)
                · rw [if_neg hid] at haft
                  exact hbefall t' haft
            | true =>
                simp only [applyOp, sendIteration, hg, if_true] at haft
                refine running_false_after_updateTask _ tid _ now writeOk (Or.inr rfl) id t' ?_ haft
                intro y hy
                simp only [mapGet_mapSet] at hy
                by_cases hid : id = tid
                · rw [if_pos hid] at hy
                  have hy' : ({ (getNextMessage msgs (some x)).2.getD x with
                      messageCount := sent + 1 } : PersistentAutomationState) = y := by
                    simpa using hy
                  rw [← hy']
                  show ((getNextMessage msgs (some x)).2.getD x).running = false
                  rw [getNextMessage_preserves]
                  exact hbefall x (by rw [hid]; exact hg)
                · rw [if_neg hid, if_neg hid] at hy
                  exact hbefall y hy
    | discoveryFailed tid now writeOk =>
        exact running_false_after_updateTask w tid _ now writeOk (Or.inl rfl) id t' hbefall haft
    | fatalError tid now writeOk =>
        exact running_false_after_updateTask w tid _ now writeOk (Or.inl rfl) id t' hbefall haft
    | finishRun tid finalCount now writeOk =>
        exact running_false_after_updateTask w tid _ now writeOk (Or.inl rfl) id t' hbefall haft

/-- Witness for C7: creation inserts a running task, and a stop on the
stopped fixture leaves it stopped. -/
theorem running_one_way_witness :
    mapGet (applyOp (Op.start cfgW "T2" 7 true) wW).tasks "T2" =
      some { taskId := "T2", running := true, messageCount := 0,
             startTime := some 7, config := some cfgW, lastUpdated := 7,
             processId := some "T2", messageRotationIndex := 0 }
    ∧ ({ taskStopped with lastUpdated := 5 } : PersistentAutomationState).running = false :=
  ⟨running_one_way.1 cfgW "T2" 7 true wW,
   running_one_way.2 (Op.stop "T1" 5 true) wStopped "T1" taskStopped
     ({ taskStopped with lastUpdated := 5 }) trivial (by decide) (by decide) (by decide)⟩

/-! Discovery heuristic lemmas. -/

theorem scanElements_eq_find? (idx : Nat) (selector : String) (els : List DomElement) :
    scanElements idx selector els =
      els.find? (fun el => isEditable el &&
        (hasKeyword el || decide (idx < 10) || isGenericFallbackSel selector)) := by
  induction els with
  | nil => rfl
  | cons el els ih =>
      unfold scanElements
      cases he : isEditable el with
      | false => simp [List.find?, he, ih]
      | true =>
          cases hk : hasKeyword el with
          | true => simp [List.find?, he, hk]
          | false =>
              by_cases h10 : idx < 10
              · simp [List.find?, he, hk, h10]
              · cases hf : isGenericFallbackSel selector with
                | true => simp [List.find?, he, hk, h10, hf]
                | false => simp [List.find?, he, hk, h10, hf, ih]

theorem findMessageGo_eq_spec (doc : List DomElement) :
    ∀ sels : List (Nat × String),
      (∀ q ∈ sels, ∀ el : DomElement,
        (isEditable el && (hasKeyword el || decide (q.1 < 10) || isGenericFallbackSel q.2))
            = isEditable el
        ∧ specAccepts (q.1, el) = isEditable el) →
      findMessageGo doc sels =
        ((sels.flatMap (fun q => (matchingElements doc q.1).map (fun el => (q.1, el)))).find?
            specAccepts).map Prod.snd := by
  intro sels
  induction sels with
  | nil => intro _; rfl
  | cons q rest ih =>
      intro h
      have hq := h q (List.mem_cons_self q rest)
      have hrest := fun q' hq' => h q' (List.mem_cons_of_mem q hq')
      unfold findMessageGo
      rw [scanElements_eq_find?]
      have hcodeP : (fun el => isEditable el &&
          (hasKeyword el || decide (q.1 < 10) || isGenericFallbackSel q.2)) =
          (fun el => isEditable el) := funext (fun el => (hq el).1)
      rw [hcodeP]
      rw [List.flatMap_cons, List.find?_append, List.find?_map]
      have hspecP : (specAccepts ∘ (fun el => (q.1, el))) = (fun el => isEditable el) :=
        funext (fun el => (hq el).2)
      rw [hspecP]
      cases hfind : (matchingElements doc q.1).find? (fun el => isEditable el) with
      | some el => simp [hfind]
      | none =>
          simp only [hfind, Option.map_none', Option.none_or]
          exact ih hrest

/-- C5: the discovery heuristic equals the specified acceptance policy: scan
(pattern, element) pairs pattern-major in document order and accept the first
genuinely interactive element that has a keyword hint, or sits under one of
the leading domain-specific patterns, or under one of the three generic
fallback patterns — hence an element reachable only through a late fallback
pattern with no keyword hint is accepted only after every earlier pattern and
keyword match is exhausted, and an empty scan is a definitive not-found. -/
theorem discovery_policy_refinement (doc : List DomElement) :
    findMessageInput doc = specDiscovery doc := by
  unfold findMessageInput specDiscovery specScanOrder
  apply findMessageGo_eq_spec
  intro q hq el
  fin_cases hq
  all_goals simp only [specAccepts]
  all_goals cases hed : isEditable el <;> cases hkw : hasKeyword el <;> exact ⟨rfl, rfl⟩

end AutoOrch
